import Mathlib

/-
Verification development for the OpenAPI-operation-to-tool compiler
(src/openapi-to-tools.ts of the openapi-to-mcp repository).

The embedding translates the source functions into executable Lean
definitions: JavaScript objects become association lists in insertion
order, optional / possibly-absent fields become Option, JavaScript
values handled by the response normalizer become an explicit value type
with a heap so that cyclic structures are representable, and the
asynchronous HTTP call inside a tool handler becomes an explicit
outcome parameter.  HTML-to-Markdown conversion (the Turndown library)
is an external collaborator excluded from the modelled core; the model
therefore stores descriptions unchanged.
-/

namespace OpenApiMcp

/-! ## String helpers (JavaScript string operations used by the source) -/

/-- Model of JavaScript `toLowerCase` restricted to the ASCII range used
by endpoint keys and paths. -/
def jsLower (s : String) : String := ⟨s.data.map Char.toLower⟩

/-- Model of JavaScript `toUpperCase` restricted to ASCII. -/
def jsUpper (s : String) : String := ⟨s.data.map Char.toUpper⟩

/-- Removal of one leading `/` character, the effect of
`replace(/^\//, '')`. -/
def stripOneLeadingSlash : List Char → List Char
  | '/' :: rest => rest
  | l => l

/-- Model of `normPath` from the source: ensure exactly the one leading
slash that the source prepends, and lowercase
(`'/' + p.replace(/^\//, '').toLowerCase()`). -/
def normPath (p : String) : String :=
  "/" ++ jsLower ⟨stripOneLeadingSlash p.data⟩

/-- Model of `opKey` from the source: `method.toLowerCase() + ':' +
normPath(path)`. -/
def opKey (method path : String) : String :=
  jsLower method ++ ":" ++ normPath path

/-- Replacement of every maximal run of `/` characters by a single `_`,
the effect of `replace(/\/+/g, '_')`.  The boolean argument records
whether the previous character was a slash. -/
def collapseSlashesAux : Bool → List Char → List Char
  | _, [] => []
  | prevSlash, c :: rest =>
    if c = '/' then
      if prevSlash then collapseSlashesAux true rest
      else '_' :: collapseSlashesAux true rest
    else c :: collapseSlashesAux false rest

/-- Slash-run collapsing on a character list. -/
def collapseSlashes (l : List Char) : List Char := collapseSlashesAux false l

/-- Position after the first `}` of the list, when one exists. -/
def afterFirstClose : List Char → Option (List Char)
  | [] => none
  | c :: rest => if c = '}' then some rest else afterFirstClose rest

/-- Attempted match of the regular expression `\{[^}]+\}` starting just
after an opening `{`: the remainder after the closing brace when at
least one non-`}` character precedes the first `}`. -/
def braceSplit : List Char → Option (List Char)
  | [] => none
  | d :: rest2 => if d = '}' then none else afterFirstClose rest2

/-- Fuel-indexed scanner for `replace(/\{[^}]+\}/g, '')`.  The fuel is
instantiated with the list length, which bounds the number of steps
because every step consumes at least one character. -/
def removeBracesAux : Nat → List Char → List Char
  | 0, l => l
  | _ + 1, [] => []
  | fuel + 1, c :: rest =>
    if c = '{' then
      match braceSplit rest with
      | some rem => removeBracesAux fuel rem
      | none => c :: removeBracesAux fuel rest
    else c :: removeBracesAux fuel rest

/-- Deletion of every `{...}` group, the effect of
`replace(/\{[^}]+\}/g, '')`. -/
def removeBraces (l : List Char) : List Char := removeBracesAux l.length l

/-- Removal of one trailing underscore, the effect of
`replace(/_$/, '')`. -/
def trimTrailingUnd (s : String) : String :=
  if s.data.getLast? = some '_' then ⟨s.data.dropLast⟩ else s

/-- Model of `pathToToolSegment` from the source.  The chain follows
the source order exactly: normalize, strip the leading slash, collapse
slash runs to underscores, delete brace groups, trim one trailing
underscore, and substitute `index` for an empty result (the `||
'index'` fallback). -/
def pathToToolSegment (path : String) : String :=
  let s0 := (normPath path).data
  let s1 := stripOneLeadingSlash s0
  let s2 := collapseSlashes s1
  let s3 := removeBraces s2
  let s4 := trimTrailingUnd ⟨s3⟩
  if s4 = "" then "index" else s4

/-- Model of `isIncluded` from the source: a non-empty include list is
consulted alone (case-insensitive equality with some entry); otherwise
an endpoint is kept when no exclude entry matches. -/
def isIncluded (key : String) (includeEndpoints excludeEndpoints : List String) : Bool :=
  let keyNorm := jsLower key
  if 0 < includeEndpoints.length then
    includeEndpoints.any (fun inc => keyNorm == jsLower inc)
  else
    !(excludeEndpoints.any (fun ex => keyNorm == jsLower ex))

/-! ## OpenAPI data model

JavaScript objects are modelled as association lists in insertion
order; fields that may be absent at runtime are Option-valued. -/

/-- Lookup in an association list, the model of a JavaScript property
read `o[k]` (absent property gives `undefined`, modelled as `none`). -/
def alookup {α : Type} : List (String × α) → String → Option α
  | [], _ => none
  | (k2, v) :: rest, k => if k2 == k then some v else alookup rest k

/-- Schema fragment carrying the fields the source reads from either a
parameter schema or a request-body property definition: a primitive
type tag, an enumeration, and a description. -/
structure SchemaFrag where
  type : Option String := none
  enum : Option (List String) := none
  description : Option String := none
deriving DecidableEq

/-- Parameter object.  A reference is an object whose `ref` field (the
`$ref` pointer of the source) is present; every other field may also be
present alongside the pointer and then overrides the resolved target. -/
structure OpenApiParameter where
  ref : Option String := none
  name : Option String := none
  /-- Location field, `in` in the source (`query`, `path` or `header`). -/
  inLoc : Option String := none
  description : Option String := none
  required : Option Bool := none
  schema : Option SchemaFrag := none
deriving DecidableEq

/-- Request-body schema: `required` name list and `properties` map. -/
structure BodySchema where
  type : Option String := none
  required : Option (List String) := none
  properties : Option (List (String × SchemaFrag)) := none
deriving DecidableEq

/-- Media-type object, the value at `content['application/json']`. -/
structure MediaTypeObject where
  schema : Option BodySchema := none
deriving DecidableEq

/-- Content map of a request body; the source only ever reads the
`application/json` entry. -/
structure RequestBodyContent where
  applicationJson : Option MediaTypeObject := none
deriving DecidableEq

/-- Request body of an operation. -/
structure RequestBody where
  content : Option RequestBodyContent := none
deriving DecidableEq

/-- One operation (one HTTP method on one path). -/
structure OpenApiOperation where
  operationId : Option String := none
  summary : Option String := none
  description : Option String := none
  parameters : Option (List OpenApiParameter) := none
  requestBody : Option RequestBody := none
deriving DecidableEq

/-- Parsed OpenAPI document.  A `none` path item models a malformed
entry (the `typeof pathItem !== 'object'` guard of the source), and the
optional `parameters` dictionary is the target of reference
resolution. -/
structure OpenApiSpec where
  paths : Option (List (String × Option (List (String × OpenApiOperation)))) := none
  parameters : Option (List (String × OpenApiParameter)) := none
deriving DecidableEq

/-! ## Reference resolver -/

/-- Character-list test that the first list is a leading segment of the
second. -/
def charsLead : List Char → List Char → Bool
  | [], _ => true
  | _ :: _, [] => false
  | a :: as, b :: bs => a == b && charsLead as bs

/-- The pointer shape recognized by the source: the literal lead
`#/parameters/` (13 characters). -/
def refLead : List Char := "#/parameters/".data

/-- Model of `resolveParameterRef`: a pointer of any other shape yields
`none`; otherwise the named entry of the document's shared parameter
dictionary (the `replace('#/parameters/','')` of the source strips the
13-character lead). -/
def resolveParameterRef (r : String) (spec : OpenApiSpec) : Option OpenApiParameter :=
  if charsLead refLead r.data then
    match spec.parameters with
    | some dict => alookup dict ⟨r.data.drop 13⟩
    | none => none
  else none

/-- Merge of a resolved target with the fields declared alongside the
reference, the spread `{...resolved, ...locals}` where `locals` is the
referring object without its `$ref` key: every present local field
wins, and the result's `ref` field comes from the target alone. -/
def mergeParam (target p : OpenApiParameter) : OpenApiParameter where
  ref := target.ref
  name := p.name <|> target.name
  inLoc := p.inLoc <|> target.inLoc
  description := p.description <|> target.description
  required := p.required <|> target.required
  schema := p.schema <|> target.schema

/-- Model of `resolveParameter`.  The `if (param.$ref)` truthiness test
of the source treats an empty pointer string like an absent one. -/
def resolveParameter (p : OpenApiParameter) (spec : OpenApiSpec) : Option OpenApiParameter :=
  match p.ref with
  | some r =>
    if r = "" then some p
    else
      match resolveParameterRef r spec with
      | none => none
      | some target => some (mergeParam target p)
  | none => some p

/-! ## Schema synthesizer -/

/-- Runtime base type of a synthesized schema field, the closed set of
Zod types the source can produce. -/
inductive ZodBase
  | zenum (vals : List String)
  | znumber
  | zboolean
  | zarray
  | zstring
deriving DecidableEq

/-- Synthesized schema field: base type, optionality, description. -/
structure ZodField where
  base : ZodBase
  optional : Bool
  description : Option String
deriving DecidableEq

/-- Mapping of a primitive type tag to a base type, the `switch` of the
source with its fallback-to-string default. -/
def zodOfTypeTag (t : String) : ZodBase :=
  if t = "integer" ∨ t = "number" then .znumber
  else if t = "boolean" then .zboolean
  else if t = "array" then .zarray
  else .zstring

/-- Model of `openApiTypeToZod`.  An enumeration present and non-empty
(the `enumVal?.length` truthiness test) gives a closed string choice;
otherwise the type tag with default `string` decides.  The description
is attached unchanged: the HTML-to-Markdown conversion the source may
apply is the excluded Turndown collaborator. -/
def openApiTypeToZod (schema : Option SchemaFrag) (description : Option String)
    (required : Bool) : ZodField :=
  let t := (schema.bind (·.type)).getD "string"
  let base :=
    match schema.bind (·.enum) with
    | some vs => if 0 < vs.length then ZodBase.zenum vs else zodOfTypeTag t
    | none => zodOfTypeTag t
  { base := base, optional := !required, description := description }

/-- JavaScript property-key form of a possibly-absent name: an absent
name is coerced to the literal key `undefined` by `shape[name]`. -/
def jsKey (n : Option String) : String := n.getD "undefined"

/-- Assignment `o[k] = v` on a JavaScript object modelled as an
association list: an existing key is updated in place, a new key is
appended. -/
def objAssign {α : Type} (shape : List (String × α)) (k : String) (v : α) :
    List (String × α) :=
  if (alookup shape k).isSome then
    shape.map (fun kv => if kv.1 == k then (kv.1, v) else kv)
  else shape ++ [(k, v)]

/-- Request-body schema of an operation, the optional chain
`op.requestBody?.content?.['application/json']?.schema`. -/
def bodySchemaOf (op : OpenApiOperation) : Option BodySchema :=
  ((op.requestBody.bind (·.content)).bind (·.applicationJson)).bind (·.schema)

/-- Body-property list of an operation, `Object.entries` of the
request-body `properties` map (empty when the map is absent). -/
def bodyProps (op : OpenApiOperation) : List (String × SchemaFrag) :=
  ((bodySchemaOf op).bind (·.properties)).getD []

/-- Parameter pass of the shape builder: resolve the parameter, skip it
when unresolvable or neither query nor path, otherwise assign its field
under its name (required when either the resolved target or the
referring object says so). -/
def paramStep (spec : OpenApiSpec) (shape : List (String × ZodField))
    (p : OpenApiParameter) : List (String × ZodField) :=
  match resolveParameter p spec with
  | none => shape
  | some resolved =>
    if resolved.inLoc == some "query" || resolved.inLoc == some "path" then
      objAssign shape (jsKey resolved.name)
        (openApiTypeToZod resolved.schema resolved.description
          (resolved.required == some true || p.required == some true))
    else shape

/-- Body pass of the shape builder: append a field for every body
property whose name is not already a key of the shape. -/
def bodyStep (requiredFields : List String) (shape : List (String × ZodField))
    (kv : String × SchemaFrag) : List (String × ZodField) :=
  if (alookup shape kv.1).isSome then shape
  else shape ++ [(kv.1, openApiTypeToZod (some kv.2) kv.2.description
    (requiredFields.contains kv.1))]

/-- Model of `buildZodShapeFromOperation`: resolved query/path
parameters first, then request-body properties whose name is not
already claimed. -/
def buildZodShapeFromOperation (op : OpenApiOperation) (spec : OpenApiSpec) :
    List (String × ZodField) :=
  (bodyProps op).foldl (bodyStep (((bodySchemaOf op).bind (·.required)).getD []))
    ((op.parameters.getD []).foldl (paramStep spec) [])

/-! ## Operation collector and name assigner -/

/-- Fixed method list of the source, in its declared precedence order. -/
def HTTP_METHODS : List String :=
  ["get", "post", "put", "patch", "delete", "head", "options"]

/-- One collected operation together with its endpoint key and derived
base name, the record type produced by `resolveOperations`. -/
structure ResolvedOp where
  key : String
  method : String
  path : String
  op : OpenApiOperation
  name : String
deriving DecidableEq

/-- Base tool name from a prefix and a derived segment, the expression
`toolPrefix ? toolPrefix.replace(/_$/, '') + '_' + segment : segment`
of the source (an empty prefix is falsy). -/
def toolBaseName (toolPrefix segment : String) : String :=
  if toolPrefix ≠ "" then trimTrailingUnd toolPrefix ++ "_" ++ segment
  else segment

/-- Model of `resolveOperations`: walk path entries in declaration
order, skip malformed items, walk the fixed method list, filter by the
include/exclude policy and attach the derived base name. -/
def resolveOperations (spec : OpenApiSpec) (includeEndpoints excludeEndpoints : List String)
    (toolPrefix : String) : List ResolvedOp :=
  (spec.paths.getD []).flatMap (fun entry =>
    match entry.2 with
    | none => []
    | some pathItem =>
      let pathNorm := normPath entry.1
      HTTP_METHODS.flatMap (fun method =>
        match alookup pathItem method with
        | none => []
        | some op =>
          let key := opKey method pathNorm
          if isIncluded key includeEndpoints excludeEndpoints then
            [{ key := key, method := method, path := pathNorm, op := op,
               name := toolBaseName toolPrefix (pathToToolSegment pathNorm) }]
          else []))

/-- Number of collected operations carrying a given base name, the
final value of the `nameCount` map of the source. -/
def nameCountIn (ops : List ResolvedOp) (n : String) : Nat :=
  ops.countP (fun r => r.name == n)

/-- Parameters of an operation after reference resolution, dropping the
unresolvable ones (`.map(resolveParameter).filter(p => p !== null)`). -/
def resolvedParamsOf (op : OpenApiOperation) (spec : OpenApiSpec) : List OpenApiParameter :=
  (op.parameters.getD []).filterMap (fun p => resolveParameter p spec)

/-- Names of the resolved query parameters of an operation. -/
def queryNamesOf (op : OpenApiOperation) (spec : OpenApiSpec) : List String :=
  ((resolvedParamsOf op spec).filter (fun p => p.inLoc == some "query")).map
    (fun p => jsKey p.name)

/-- Names of the resolved path parameters of an operation. -/
def pathNamesOf (op : OpenApiOperation) (spec : OpenApiSpec) : List String :=
  ((resolvedParamsOf op spec).filter (fun p => p.inLoc == some "path")).map
    (fun p => jsKey p.name)

/-- Declared body-property names of an operation (`Object.keys` of the
request-body properties map, empty when the map is absent). -/
def bodyNamesOf (op : OpenApiOperation) : List String :=
  (bodyProps op).map (·.1)

/-- Tool description: summary and description joined by a period when
non-empty (the `filter(Boolean).join('. ')` of the source) with the
`API METHOD path` fallback.  HTML-to-Markdown conversion is the
excluded Turndown collaborator and is not applied in the model. -/
def toolDescription (op : OpenApiOperation) (method path : String) : String :=
  let joined := String.intercalate ". "
    (([op.summary, op.description].filterMap id).filter (fun s => s ≠ ""))
  if joined = "" then "API " ++ jsUpper method ++ " " ++ path else joined

/-- Compiled tool: the per-tool data the source closes over when it
constructs the handler, plus the exposed name, description and input
schema. -/
structure CompiledTool where
  name : String
  description : String
  shape : List (String × ZodField)
  method : String
  path : String
  pathParamNames : List String
  queryParamNames : List String
  bodyParamNames : List String
deriving DecidableEq

/-- Compilation of one collected operation under an already-decided
unique name, the loop body of `openApiToTools`. -/
def compileOne (spec : OpenApiSpec) (uniqueName : String) (r : ResolvedOp) : CompiledTool where
  name := uniqueName
  description := toolDescription r.op r.method r.path
  shape := buildZodShapeFromOperation r.op spec
  method := r.method
  path := r.path
  pathParamNames := pathNamesOf r.op spec
  queryParamNames := queryNamesOf r.op spec
  bodyParamNames := bodyNamesOf r.op

/-- Compilation configuration (the fields of the config object that
shape the tool list). -/
structure ToolsConfig where
  includeEndpoints : List String
  excludeEndpoints : List String
  toolPrefix : String
deriving DecidableEq

/-- Model of `openApiToTools`: collect and filter the operations, count
base-name occurrences over the whole set, and append the owning method
to every name that occurs more than once. -/
def openApiToTools (spec : OpenApiSpec) (config : ToolsConfig) : List CompiledTool :=
  let ops := resolveOperations spec config.includeEndpoints config.excludeEndpoints
    config.toolPrefix
  ops.map (fun r =>
    compileOne spec
      (if 1 < nameCountIn ops r.name then r.name ++ "_" ++ r.method else r.name) r)

/-! ## JavaScript value model

Response payloads are modelled as an explicit value type over a heap of
numbered objects, so that cyclic and shared structures (which the
response normalizer must tolerate) are representable. -/

/-- JavaScript runtime value as seen by the response normalizer. -/
inductive JsVal
  | null
  | undefined
  | bool (b : Bool)
  | num (n : Int)
  | str (s : String)
  | bigint (n : Int)
  | func
  | sym (description : String)
  | ref (addr : Nat)
deriving DecidableEq

/-- Heap object: an array or a plain object with ordered fields. -/
inductive HeapObj
  | arr (elems : List JsVal)
  | obj (fields : List (String × JsVal))
deriving DecidableEq

/-- Heap: a finite map from addresses to objects. -/
abbrev Heap := List (Nat × HeapObj)

/-- Address lookup in a heap. -/
def heapGet (heap : Heap) (a : Nat) : Option HeapObj :=
  match heap with
  | [] => none
  | (b, o) :: rest => if b == a then some o else heapGet rest a

/-- Lowercase hexadecimal digit. -/
def hexDigit (n : Nat) : Char :=
  if n < 10 then Char.ofNat (48 + n) else Char.ofNat (87 + n)

/-- JSON escape of one character, as performed by `JSON.stringify` on
string values. -/
def escapeChar (c : Char) : List Char :=
  if c = '"' then ['\\', '"']
  else if c = '\\' then ['\\', '\\']
  else if c = '\x08' then ['\\', 'b']
  else if c = '\x09' then ['\\', 't']
  else if c = '\x0a' then ['\\', 'n']
  else if c = '\x0c' then ['\\', 'f']
  else if c = '\x0d' then ['\\', 'r']
  else if c.toNat < 32 then
    ['\\', 'u', '0', '0', hexDigit (c.toNat / 16), hexDigit (c.toNat % 16)]
  else [c]

/-- JSON string encoding with surrounding quotes. -/
def quoteJson (s : String) : String :=
  ⟨'"' :: (s.data.flatMap escapeChar ++ ['"'])⟩

/-- Message of the stack-overflow failure a deeply nested structure can
provoke in the engine; the fuel-exhaustion case of the model stands for
that failure. -/
def stackMsg : String := "Maximum call stack size exceeded"

/-- Model of the replacer function inside `safeStringify`, in source
order: BigInt to decimal string, function and symbol to placeholder
text, undefined to null, an already-seen reference to the circular
placeholder, a fresh reference added to the seen set.  The seen set is
the WeakSet of the source: global to the walk, never removed from. -/
def replacer (seen : List Nat) : JsVal → JsVal × List Nat
  | .bigint n => (.str (toString n), seen)
  | .func => (.str "[Function]", seen)
  | .sym d => (.str ("Symbol(" ++ d ++ ")"), seen)
  | .undefined => (.null, seen)
  | .ref a => if seen.contains a then (.str "[Circular]", seen) else (.ref a, a :: seen)
  | v => (v, seen)

/-- Serialization of array elements: an element whose serialization is
the undefined result renders as `null`. -/
def serItems (f : List Nat → JsVal → Except String (Option String × List Nat)) :
    List Nat → List JsVal → Except String (List String × List Nat)
  | seen, [] => .ok ([], seen)
  | seen, v :: vs =>
    match f seen v with
    | .error e => .error e
    | .ok (s, seen2) =>
      match serItems f seen2 vs with
      | .error e => .error e
      | .ok (ss, seen3) => .ok (s.getD "null" :: ss, seen3)

/-- Serialization of object members: a member whose serialization is
the undefined result is skipped. -/
def serMembers (f : List Nat → JsVal → Except String (Option String × List Nat)) :
    List Nat → List (String × JsVal) → Except String (List String × List Nat)
  | seen, [] => .ok ([], seen)
  | seen, kv :: kvs =>
    match f seen kv.2 with
    | .error e => .error e
    | .ok (none, seen2) => serMembers f seen2 kvs
    | .ok (some s, seen2) =>
      match serMembers f seen2 kvs with
      | .error e => .error e
      | .ok (ss, seen3) => .ok ((quoteJson kv.1 ++ ":" ++ s) :: ss, seen3)

/-- Model of `JSON.stringify(value, replacer)` as the recursive
property serialization of the standard: apply the replacer, then
serialize.  The result `none` is the undefined result (skipped in
objects, `null` in arrays); the error case carries the message of the
exception the engine would throw.  Fuel models the engine stack. -/
def serProp (heap : Heap) : Nat → List Nat → JsVal → Except String (Option String × List Nat)
  | 0, _, _ => .error stackMsg
  | fuel + 1, seen, v =>
    match replacer seen v with
    | (.null, seen2) => .ok (some "null", seen2)
    | (.undefined, seen2) => .ok (none, seen2)
    | (.bool b, seen2) => .ok (some (if b then "true" else "false"), seen2)
    | (.num n, seen2) => .ok (some (toString n), seen2)
    | (.str s, seen2) => .ok (some (quoteJson s), seen2)
    | (.bigint _, _) => .error "Do not know how to serialize a BigInt"
    | (.func, seen2) => .ok (none, seen2)
    | (.sym _, seen2) => .ok (none, seen2)
    | (.ref a, seen2) =>
      match heapGet heap a with
      | none => .error "dangling reference"
      | some (.arr elems) =>
        match serItems (serProp heap fuel) seen2 elems with
        | .error e => .error e
        | .ok (parts, seen3) =>
          .ok (some ("[" ++ String.intercalate "," parts ++ "]"), seen3)
      | some (.obj fields) =>
        match serMembers (serProp heap fuel) seen2 fields with
        | .error e => .error e
        | .ok (parts, seen3) =>
          .ok (some ("\x7b" ++ String.intercalate "," parts ++ "\x7d"), seen3)

/-- Array elements under plain `JSON.stringify` (no replacer). -/
def plainItems (f : JsVal → Except String (Option String)) :
    List JsVal → Except String (List String)
  | [] => .ok []
  | v :: vs =>
    match f v with
    | .error e => .error e
    | .ok s =>
      match plainItems f vs with
      | .error e => .error e
      | .ok ss => .ok (s.getD "null" :: ss)

/-- Object members under plain `JSON.stringify` (no replacer). -/
def plainMembers (f : JsVal → Except String (Option String)) :
    List (String × JsVal) → Except String (List String)
  | [] => .ok []
  | kv :: kvs =>
    match f kv.2 with
    | .error e => .error e
    | .ok none => plainMembers f kvs
    | .ok (some s) =>
      match plainMembers f kvs with
      | .error e => .error e
      | .ok ss => .ok ((quoteJson kv.1 ++ ":" ++ s) :: ss)

/-- Model of plain `JSON.stringify` without replacer, the call in the
catch branch of `safeStringify`: BigInt throws, cycles are detected by
the per-branch stack and throw, undefined, functions and symbols give
the undefined result. -/
def plainSer (heap : Heap) : Nat → List Nat → JsVal → Except String (Option String)
  | 0, _, _ => .error stackMsg
  | fuel + 1, stack, v =>
    match v with
    | .null => .ok (some "null")
    | .undefined => .ok none
    | .bool b => .ok (some (if b then "true" else "false"))
    | .num n => .ok (some (toString n))
    | .str s => .ok (some (quoteJson s))
    | .bigint _ => .error "Do not know how to serialize a BigInt"
    | .func => .ok none
    | .sym _ => .ok none
    | .ref a =>
      if stack.contains a then .error "Converting circular structure to JSON"
      else
        match heapGet heap a with
        | none => .error "dangling reference"
        | some (.arr elems) =>
          match plainItems (plainSer heap fuel (a :: stack)) elems with
          | .error e => .error e
          | .ok parts => .ok (some ("[" ++ String.intercalate "," parts ++ "]"))
        | some (.obj fields) =>
          match plainMembers (plainSer heap fuel (a :: stack)) fields with
          | .error e => .error e
          | .ok parts => .ok (some ("\x7b" ++ String.intercalate "," parts ++ "\x7d"))

/-- Fields of the diagnostic object the catch branch of `safeStringify`
builds from a failure message. -/
def diagFields (msg : String) : List (String × JsVal) :=
  [("error", .str "Failed to serialize response"), ("message", .str msg)]

/-- Model of `safeStringify`: serialize with the replacer; on failure,
encode the fresh two-field diagnostic object with plain
`JSON.stringify` (depth 2, so fuel 3 is exact).  The `undefined`
results are unreachable (proved below) and keep the model total. -/
def safeStringify (heap : Heap) (fuel : Nat) (v : JsVal) : String :=
  match serProp heap fuel [] v with
  | .ok (some s, _) => s
  | .ok (none, _) => "undefined"
  | .error e =>
    match plainSer [(0, .obj (diagFields e))] 3 [] (.ref 0) with
    | .ok (some s) => s
    | _ => "undefined"

/-! ## JSON reader

The round-trip property of the specification speaks of parsing the
normalizer's output back; this is a standard JSON reader over the
fragment the normalizer emits (null, booleans, integers, strings with
simple escapes, arrays, objects, no insignificant whitespace). -/

/-- Parsed JSON value. -/
inductive Json
  | null
  | bool (b : Bool)
  | num (n : Int)
  | str (s : String)
  | arr (elems : List Json)
  | obj (fields : List (String × Json))

/-- Reading of a string body after the opening quote, up to and past
the closing quote. -/
def readStringBody : List Char → Option (List Char × List Char)
  | [] => none
  | '"' :: rest => some ([], rest)
  | '\\' :: c :: rest =>
    let esc : Option Char :=
      if c = '"' then some '"'
      else if c = '\\' then some '\\'
      else if c = '/' then some '/'
      else if c = 'n' then some '\x0a'
      else if c = 't' then some '\x09'
      else if c = 'r' then some '\x0d'
      else if c = 'b' then some '\x08'
      else if c = 'f' then some '\x0c'
      else none
    match esc, readStringBody rest with
    | some ch, some (cs, rem) => some (ch :: cs, rem)
    | _, _ => none
  | c :: rest =>
    if c = '\\' then none
    else
      match readStringBody rest with
      | some (cs, rem) => some (c :: cs, rem)
      | none => none

/-- Longest leading run of decimal digits. -/
def takeDigits : List Char → List Char × List Char
  | [] => ([], [])
  | c :: rest =>
    if c.isDigit then
      let p := takeDigits rest
      (c :: p.1, p.2)
    else ([], c :: rest)

/-- Numeric value of a digit run. -/
def digitsToNat (ds : List Char) : Nat :=
  ds.foldl (fun acc c => acc * 10 + (c.toNat - 48)) 0

/-- Comma-separated array elements up to the closing bracket, reading
each element with the given value reader. -/
def readElemsWith (f : List Char → Option (Json × List Char)) :
    Nat → List Char → Option (List Json × List Char)
  | 0, _ => none
  | fuel + 1, l =>
    match f l with
    | none => none
    | some (j, rest) =>
      match rest with
      | ',' :: rest2 =>
        match readElemsWith f fuel rest2 with
        | some (js, rem) => some (j :: js, rem)
        | none => none
      | ']' :: rem => some ([j], rem)
      | _ => none

/-- Comma-separated object members up to the closing brace, reading
each value with the given value reader. -/
def readMembersWith (f : List Char → Option (Json × List Char)) :
    Nat → List Char → Option (List (String × Json) × List Char)
  | 0, _ => none
  | fuel + 1, l =>
    match l with
    | '"' :: rest =>
      match readStringBody rest with
      | none => none
      | some (kcs, rest2) =>
        match rest2 with
        | ':' :: rest3 =>
          match f rest3 with
          | none => none
          | some (j, rest4) =>
            match rest4 with
            | ',' :: rest5 =>
              match readMembersWith f fuel rest5 with
              | some (kvs, rem) => some ((⟨kcs⟩, j) :: kvs, rem)
              | none => none
            | '\x7d' :: rem => some ([(⟨kcs⟩, j)], rem)
            | _ => none
        | _ => none
    | _ => none

/-- Reading of one JSON value. -/
def readJsonVal : Nat → List Char → Option (Json × List Char)
  | 0, _ => none
  | fuel + 1, l =>
    match l with
    | 'n' :: 'u' :: 'l' :: 'l' :: rest => some (.null, rest)
    | 't' :: 'r' :: 'u' :: 'e' :: rest => some (.bool true, rest)
    | 'f' :: 'a' :: 'l' :: 's' :: 'e' :: rest => some (.bool false, rest)
    | '"' :: rest =>
      match readStringBody rest with
      | some (cs, rem) => some (.str ⟨cs⟩, rem)
      | none => none
    | '[' :: ']' :: rem => some (.arr [], rem)
    | '[' :: rest =>
      match readElemsWith (readJsonVal fuel) fuel rest with
      | some (js, rem) => some (.arr js, rem)
      | none => none
    | '\x7b' :: '\x7d' :: rem => some (.obj [], rem)
    | '\x7b' :: rest =>
      match readMembersWith (readJsonVal fuel) fuel rest with
      | some (kvs, rem) => some (.obj kvs, rem)
      | none => none
    | '-' :: rest =>
      match takeDigits rest with
      | ([], _) => none
      | (ds, rem) => some (.num (-(digitsToNat ds : Int)), rem)
    | _ =>
      match takeDigits l with
      | ([], _) => none
      | (ds, rem) => some (.num (digitsToNat ds), rem)

/-- Parsing of a complete JSON text. -/
def jsonParse (s : String) : Option Json :=
  match readJsonVal (s.data.length + 1) s.data with
  | some (j, []) => some j
  | _ => none

/-! ## Tool invoker -/

/-- JavaScript truthiness. -/
def truthy : JsVal → Bool
  | .null => false
  | .undefined => false
  | .bool b => b
  | .num n => n != 0
  | .str s => s != ""
  | .bigint n => n != 0
  | .func => true
  | .sym _ => true
  | .ref _ => true

/-- Elements of an array under the `join` of string coercion: null and
undefined render empty, others through the given coercion. -/
def jsJoinItems (f : JsVal → String) : List JsVal → List String
  | [] => []
  | v :: vs =>
    (match v with
     | .null => ""
     | .undefined => ""
     | w => f w) :: jsJoinItems f vs

/-- Model of the `String(x)` coercion: primitives render canonically, a
plain object renders as the object tag, an array joins its elements
with commas (revisited arrays render empty, the engine's cycle guard).
A function renders as a fixed placeholder for its source text. -/
def jsToString (heap : Heap) : Nat → List Nat → JsVal → String
  | 0, _, _ => ""
  | fuel + 1, visited, v =>
    match v with
    | .null => "null"
    | .undefined => "undefined"
    | .bool b => if b then "true" else "false"
    | .num n => toString n
    | .str s => s
    | .bigint n => toString n
    | .func => "function"
    | .sym d => "Symbol(" ++ d ++ ")"
    | .ref a =>
      match heapGet heap a with
      | some (.arr elems) =>
        if visited.contains a then ""
        else String.intercalate ","
          (jsJoinItems (jsToString heap fuel (a :: visited)) elems)
      | some (.obj _) => "[object Object]"
      | none => ""

/-- Backend response attached to a transport failure. -/
structure AxiosResponse where
  status : Nat
  heap : Heap
  data : JsVal
deriving DecidableEq

/-- Value caught by the handler's catch-all: a transport error with an
optional backend response, some other `Error`, or a thrown non-Error
(already coerced to its string form). -/
inductive ThrownValue
  | axiosError (message : String) (response : Option AxiosResponse)
  | jsError (message : String)
  | nonError (asString : String)
deriving DecidableEq

/-- Outcome of the awaited HTTP call. -/
inductive HttpOutcome
  | success (heap : Heap) (data : JsVal)
  | failure (e : ThrownValue)
deriving DecidableEq

/-- Structured backend error field of a failure, when the failure
carries a truthy object-typed response body with an `error` key: the
chain `axios.isAxiosError(e) && e.response?.data && typeof
e.response.data === 'object' && 'error' in e.response.data` of the
source. -/
def respDataError (e : ThrownValue) : Option (Heap × JsVal) :=
  match e with
  | .axiosError _ (some resp) =>
    if truthy resp.data then
      match resp.data with
      | .ref a =>
        match heapGet resp.heap a with
        | some (.obj fields) =>
          match alookup fields "error" with
          | some v => some (resp.heap, v)
          | none => none
        | _ => none
      | _ => none
    else none
  | _ => none

/-- Best-effort failure message of the catch branch: the string form of
the structured backend error field when present, else the error's own
message (a thrown non-Error is coerced with `String`). -/
def errorMessage (e : ThrownValue) : String :=
  match respDataError e with
  | some (h, v) => jsToString h (h.length + 1) [] v
  | none =>
    match e with
    | .axiosError m _ => m
    | .jsError m => m
    | .nonError s => s

/-- Case-insensitive leading-segment test on character lists. -/
def charsLeadCI (a b : List Char) : Bool :=
  charsLead (a.map Char.toLower) (b.map Char.toLower)

/-- Global case-insensitive replacement of a non-empty literal pattern,
the `replace(new RegExp(pattern, 'gi'), rep)` of the source: scan left
to right, replace every non-overlapping occurrence, continue after the
replacement. -/
def replaceAllCIAux (pat rep : List Char) : Nat → List Char → List Char
  | 0, s => s
  | _ + 1, [] => []
  | fuel + 1, c :: rest =>
    if charsLeadCI pat (c :: rest) then
      rep ++ replaceAllCIAux pat rep fuel ((c :: rest).drop pat.length)
    else c :: replaceAllCIAux pat rep fuel rest

/-- One HTTP request as handed to the transport client. -/
structure HttpRequest where
  method : String
  url : String
  params : List (String × JsVal)
  data : Option (List (String × JsVal))
deriving DecidableEq

/-- Argument read `args[p]`; an absent key reads as undefined. -/
def argGet (args : List (String × JsVal)) (p : String) : JsVal :=
  (alookup args p).getD .undefined

/-- Request construction of the handler body: substitute every path
parameter whose argument is neither undefined nor null into the path
template (case-insensitive placeholder match), collect the declared
query parameters whose argument is neither undefined nor null, and
build the body map from declared body properties with defined
arguments when any body property is declared. -/
def buildRequest (t : CompiledTool) (argHeap : Heap) (args : List (String × JsVal)) :
    HttpRequest :=
  let url := t.pathParamNames.foldl (fun u p =>
    let val := argGet args p
    if val == .undefined || val == .null then u
    else ⟨replaceAllCIAux ('\x7b' :: (p.data ++ ['\x7d']))
      (jsToString argHeap (argHeap.length + 1) [] val).data u.data.length u.data⟩)
    t.path
  let params := t.queryParamNames.foldl (fun ps p =>
    let val := argGet args p
    if val == .undefined || val == .null then ps else objAssign ps p val) []
  let data :=
    if 0 < t.bodyParamNames.length then
      some ((t.bodyParamNames.filter (fun p => !(argGet args p == .undefined))).foldl
        (fun m p => objAssign m p (argGet args p)) [])
    else none
  { method := t.method, url := url, params := params, data := data }

/-- One content block of a result envelope. -/
structure ContentBlock where
  type : String
  text : String
deriving DecidableEq

/-- Uniform invocation outcome of a tool handler. -/
structure ResultEnvelope where
  content : List ContentBlock
  isError : Option Bool
deriving DecidableEq

/-- Model of the per-tool handler: build the request, dial the backend
(modelled by the outcome function), and map success to a single text
block wrapping the normalized payload, failure to a single error-marked
text block with the error flag set.  The try/catch of the source is the
totality of this function: every failure constructor lands in the
error envelope, never outside it. -/
def toolHandler (t : CompiledTool) (stackFuel : Nat)
    (backend : HttpRequest → HttpOutcome) (argHeap : Heap)
    (args : List (String × JsVal)) : ResultEnvelope :=
  match backend (buildRequest t argHeap args) with
  | .success heap data =>
    { content := [{ type := "text", text := safeStringify heap stackFuel data }],
      isError := none }
  | .failure e =>
    { content := [{ type := "text", text := "Error: " ++ errorMessage e }],
      isError := some true }

/-! ## Claim-side definitions

Definitions in this section follow the wording of specification
sentences (not the source) and exist to be compared with the
source-derived definitions above. -/

/-- Segment derivation in the order the specification sentence states
it: strip the leading slash from the normalized path, replace each
brace group with nothing, collapse the remaining slashes into
underscores, trim a trailing underscore, substitute the fallback for an
empty result. -/
def specOrderSegment (path : String) : String :=
  let s1 := stripOneLeadingSlash (normPath path).data
  let s2 := removeBraces s1
  let s3 := collapseSlashes s2
  let s4 := trimTrailingUnd ⟨s3⟩
  if s4 = "" then "index" else s4

/-- Segment derivation in the amended order: strip the leading slash
from the normalized path, collapse slash runs into underscores, then
replace each brace group with nothing, trim a trailing underscore,
substitute the fallback for an empty result. -/
def amendedOrderSegment (path : String) : String :=
  let s1 := stripOneLeadingSlash (normPath path).data
  let s2 := collapseSlashes s1
  let s3 := removeBraces s2
  let s4 := trimTrailingUnd ⟨s3⟩
  if s4 = "" then "index" else s4

/-- Names of the resolved query and path parameters of an operation, in
parameter order. -/
def queryPathNamesOf (op : OpenApiOperation) (spec : OpenApiSpec) : List String :=
  ((resolvedParamsOf op spec).filter
    (fun p => p.inLoc == some "query" || p.inLoc == some "path")).map
    (fun p => jsKey p.name)

/-- Names contributed by a raw parameter list to the shape: the
resolved query/path parameters' keys in order.  On an operation's
parameter list this is exactly `queryPathNamesOf`. -/
def paramKeys (spec : OpenApiSpec) (params : List OpenApiParameter) : List String :=
  ((params.filterMap (fun p => resolveParameter p spec)).filter
    (fun p => p.inLoc == some "query" || p.inLoc == some "path")).map
    (fun p => jsKey p.name)

/-- Names of the resolved header parameters of an operation. -/
def headerNamesOf (op : OpenApiOperation) (spec : OpenApiSpec) : List String :=
  ((resolvedParamsOf op spec).filter (fun p => p.inLoc == some "header")).map
    (fun p => jsKey p.name)

/-- Test whether a declared parameter resolves to a header parameter. -/
def isResolvedHeader (spec : OpenApiSpec) (p : OpenApiParameter) : Bool :=
  match resolveParameter p spec with
  | some q => q.inLoc == some "header"
  | none => false

/-- Copy of an operation with every parameter that resolves to a header
parameter removed. -/
def dropHeaderParams (op : OpenApiOperation) (spec : OpenApiSpec) : OpenApiOperation :=
  { op with
    parameters := some ((op.parameters.getD []).filter (fun p => !isResolvedHeader spec p)) }

/-! ## Concrete fixtures used by counterexamples and witnesses -/

/-- Operation with no declared data. -/
def emptyOp : OpenApiOperation := {}

/-- Configuration with empty filter lists and no prefix. -/
def plainCfg : ToolsConfig :=
  { includeEndpoints := [], excludeEndpoints := [], toolPrefix := "" }

/-- Document with one path and two methods; its two operations share
the base name and differ in method. -/
def petDoc : OpenApiSpec :=
  { paths := some [("/pet/\x7bid\x7d", some [("get", emptyOp), ("put", emptyOp)])] }

/-- Document with two same-method operations whose paths derive the
same base segment. -/
def dupDoc : OpenApiSpec :=
  { paths := some [("/pet", some [("get", emptyOp)]),
                   ("/pet/\x7bid\x7d", some [("get", emptyOp)])] }

/-- Document in which a once-occurring base name equals a suffixed
name: the multi-method pair at the first path is renamed to the name
the second path already owns. -/
def dupDoc2 : OpenApiSpec :=
  { paths := some [("/pet", some [("get", emptyOp), ("put", emptyOp)]),
                   ("/pet/get", some [("get", emptyOp)])] }

/-- Operation declaring one header parameter and one same-named body
property. -/
def headerBodyOp : OpenApiOperation :=
  { parameters := some [{ name := some "x", inLoc := some "header" }],
    requestBody := some { content := some { applicationJson := some { schema := some {
      properties := some [("x", { type := some "integer" })] } } } } }

/-- Document holding `headerBodyOp` at one path. -/
def headerBodyDoc : OpenApiSpec :=
  { paths := some [("/things", some [("post", headerBodyOp)])] }

/-- Operation declaring only one header parameter. -/
def headerOnlyOp : OpenApiOperation :=
  { parameters := some [{ name := some "hx", inLoc := some "header" }] }

/-- Operation with one query parameter and a body whose properties
overlap the parameter name. -/
def overlapOp : OpenApiOperation :=
  { parameters := some [{ name := some "query", inLoc := some "query",
                          schema := some { type := some "string" } }],
    requestBody := some { content := some { applicationJson := some { schema := some {
      required := some ["url"],
      properties := some [("query", { type := some "integer" }),
                          ("url", { type := some "string" })] } } } } }

/-- Parameter dictionary fixture for reference resolution. -/
def refDoc : OpenApiSpec :=
  { parameters := some [("key",
      { name := some "key", inLoc := some "query", required := some false,
        schema := some { type := some "string" } })] }

/-- Referring parameter with a local `required` override. -/
def refParam : OpenApiParameter :=
  { ref := some "#/parameters/key", required := some true }

/-- Tool compiled from a one-operation document, used to invoke the
handler model at concrete inputs. -/
def msgOp : OpenApiOperation :=
  { parameters := some [{ name := some "query", inLoc := some "query",
                          schema := some { type := some "string" } }] }

/-- Document holding `msgOp` at one path. -/
def msgDoc : OpenApiSpec := { paths := some [("/messages", some [("get", msgOp)])] }

/-- Tool compiled from `msgDoc`, used to invoke the handler model at
concrete inputs. -/
def msgTool : CompiledTool :=
  compileOne msgDoc "messages"
    { key := "get:/messages", method := "get", path := "/messages",
      op := msgOp, name := "messages" }

/-- Simulated backend failure: a 400 response whose body is the object
with the structured error field `bad request`. -/
def badRequestFailure : ThrownValue :=
  .axiosError "Request failed with status code 400"
    (some { status := 400,
            heap := [(0, .obj [("error", .str "bad request")])],
            data := .ref 0 })

/-- Backend function that always fails with `badRequestFailure`. -/
def badRequestBackend : HttpRequest → HttpOutcome :=
  fun _ => .failure badRequestFailure

/-! ## Support lemmas -/

theorem alookup_isSome_iff {α : Type} (l : List (String × α)) (k : String) :
    (alookup l k).isSome ↔ k ∈ l.map (·.1) := by
  induction l with
  | nil => simp [alookup]
  | cons kv rest ih =>
    obtain ⟨k2, v⟩ := kv
    simp only [alookup, List.map_cons, List.mem_cons]
    by_cases h : k2 == k
    · have he : k = k2 := (beq_iff_eq.mp h).symm
      simp [h, he]
    · have hne : ¬ k = k2 := fun e => h (by simp [e])
      simp [h, hne, ih]

theorem alookup_append_of_isSome {α : Type} {l1 : List (String × α)} (l2 : List (String × α))
    {k : String} (h : (alookup l1 k).isSome) :
    alookup (l1 ++ l2) k = alookup l1 k := by
  induction l1 with
  | nil => simp [alookup] at h
  | cons kv rest ih =>
    obtain ⟨k2, v⟩ := kv
    by_cases hk : k2 == k
    · simp only [List.cons_append]
      rw [alookup, alookup]
      simp [hk]
    · simp only [List.cons_append]
      rw [alookup] at h
      rw [alookup, alookup]
      simp only [hk, Bool.false_eq_true, if_false] at h ⊢
      exact ih h

theorem objAssign_keys {α : Type} (shape : List (String × α)) (k : String) (v : α) :
    (objAssign shape k v).map (·.1) =
      if (alookup shape k).isSome then shape.map (·.1) else shape.map (·.1) ++ [k] := by
  unfold objAssign
  by_cases h : (alookup shape k).isSome
  · simp only [h, if_true]
    rw [List.map_map]
    apply List.map_congr_left
    intro a _
    by_cases ha : a.1 = k <;> simp [ha]
  · simp [h]

/-! ## Claim theorems -/

/-- C4.  For every endpoint key and include/exclude lists: a non-empty
include list keeps an endpoint exactly when its key case-insensitively
equals some include entry and the exclude list is not consulted at all;
an empty include list keeps an endpoint exactly when no exclude entry
matches; consequently a key present in both lists is kept. -/
theorem c4_isIncluded_policy (key : String) (inc exc : List String) :
    (inc ≠ [] → ((isIncluded key inc exc = true) ↔ ∃ i ∈ inc, jsLower key = jsLower i))
    ∧ (inc ≠ [] → ∀ exc2, isIncluded key inc exc = isIncluded key inc exc2)
    ∧ (inc = [] → ((isIncluded key inc exc = true) ↔ ∀ x ∈ exc, jsLower key ≠ jsLower x))
    ∧ ((∃ i ∈ inc, jsLower key = jsLower i) → isIncluded key inc exc = true) := by
  have hlen : inc ≠ [] ↔ 0 < inc.length := by cases inc <;> simp
  refine ⟨?_, ?_, ?_, ?_⟩
  · intro h
    simp [isIncluded, if_pos (hlen.mp h), List.any_eq_true]
  · intro h exc2
    simp [isIncluded, if_pos (hlen.mp h)]
  · rintro rfl
    simp [isIncluded]
  · rintro ⟨i, hi, hkey⟩
    have hne : inc ≠ [] := by rintro rfl; cases hi
    simp only [isIncluded, if_pos (hlen.mp hne), List.any_eq_true]
    exact ⟨i, hi, by simp [hkey]⟩

/-- C4 witness.  A key listed in both the include and the exclude list
is kept. -/
theorem c4_isIncluded_policy_witness :
    isIncluded "get:/health" ["get:/health"] ["get:/health"] = true :=
  (c4_isIncluded_policy "get:/health" ["get:/health"] ["get:/health"]).2.2.2
    ⟨"get:/health", by simp, rfl⟩

/-- C5 counterexample.  The claim derives the segment by removing brace
groups before collapsing slashes; the source collapses slashes first,
so a path parameter between two slashes leaves a double underscore:
the path `/pet/(braced id)/toys` compiles to `pet__toys`, not the
`pet_toys` the claimed order would produce. -/
theorem c5_segment_order_counterexample :
    pathToToolSegment "/pet/\x7bid\x7d/toys" = "pet__toys"
    ∧ specOrderSegment "/pet/\x7bid\x7d/toys" = "pet_toys"
    ∧ pathToToolSegment "/pet/\x7bid\x7d/toys" ≠ specOrderSegment "/pet/\x7bid\x7d/toys" := by
  decide

/-- C5 amended.  The derived segment strips the leading slash from the
normalized path, collapses slash runs into underscores, then replaces
each brace group with nothing, trims a trailing underscore and falls
back to the fixed segment when empty; a non-empty prefix, trimmed of a
trailing underscore, is joined to the segment by an underscore, and the
prefix example of the claim holds. -/
theorem c5_segment_amended (path toolPfx : String) :
    pathToToolSegment path = amendedOrderSegment path
    ∧ toolBaseName toolPfx (pathToToolSegment path) =
        (if toolPfx = "" then amendedOrderSegment path
         else trimTrailingUnd toolPfx ++ "_" ++ amendedOrderSegment path)
    ∧ toolBaseName "tg_" "messages" = "tg_messages" := by
  have h1 : pathToToolSegment path = amendedOrderSegment path := rfl
  refine ⟨h1, ?_, by decide⟩
  by_cases h : toolPfx = "" <;> simp [toolBaseName, h, h1]

/-- C8.  Normalizing the two-field mapping and parsing the output back
yields the same mapping; a bare string is encoded exactly once into its
seven-character quoted form; null renders as the literal; and a
self-referential object serializes without failure to an output
containing the circular-reference placeholder. -/
theorem c8_normalization_roundtrip :
    jsonParse (safeStringify [(0, .obj [("a", .num 1), ("b", .str "x")])] 10 (.ref 0)) =
      some (.obj [("a", .num 1), ("b", .str "x")])
    ∧ safeStringify [] 10 (.str "hello") = "\"hello\""
    ∧ (safeStringify [] 10 (.str "hello")).length = 7
    ∧ safeStringify [] 10 .null = "null"
    ∧ serProp [(0, .obj [("self", .ref 0)])] 10 [] (.ref 0) =
        .ok (some "\x7b\"self\":\"[Circular]\"\x7d", [0])
    ∧ List.IsInfix "[Circular]".data
        (safeStringify [(0, .obj [("self", .ref 0)])] 10 (.ref 0)).data :=
  ⟨rfl, rfl, rfl, rfl, rfl, by decide⟩

/-- C9.  Every handler result, on success and on failure alike, is an
envelope with exactly one content block, that block typed as text, and
an error flag that is either absent or true. -/
theorem c9_envelope_shape (t : CompiledTool) (stackFuel : Nat)
    (backend : HttpRequest → HttpOutcome) (argHeap : Heap)
    (args : List (String × JsVal)) :
    (∃ s : String, (toolHandler t stackFuel backend argHeap args).content =
      [{ type := "text", text := s }])
    ∧ ((toolHandler t stackFuel backend argHeap args).isError = none
       ∨ (toolHandler t stackFuel backend argHeap args).isError = some true) := by
  unfold toolHandler
  cases backend (buildRequest t argHeap args) with
  | success heap data => exact ⟨⟨_, rfl⟩, Or.inl rfl⟩
  | failure e => exact ⟨⟨_, rfl⟩, Or.inr rfl⟩

theorem plainSer_diag (e : String) :
    plainSer [(0, .obj (diagFields e))] 3 [] (.ref 0) =
      .ok (some ("\x7b\"error\":\"Failed to serialize response\",\"message\":"
        ++ quoteJson e ++ "\x7d")) := rfl

theorem serProp_never_undefined (heap : Heap) (fuel : Nat) (seen : List Nat) (v : JsVal)
    (s : List Nat) : serProp heap fuel seen v ≠ .ok (none, s) := by
  cases fuel with
  | zero => simp [serProp]
  | succ n =>
    cases v with
    | null => simp [serProp, replacer]
    | undefined => simp [serProp, replacer]
    | bool b => simp [serProp, replacer]
    | num m => simp [serProp, replacer]
    | str t => simp [serProp, replacer]
    | bigint m => simp [serProp, replacer]
    | func => simp [serProp, replacer]
    | sym d => simp [serProp, replacer]
    | ref a =>
      rw [serProp]
      simp only [replacer]
      by_cases hc : a ∈ seen
      · simp [hc]
      · rw [if_neg (show ¬ seen.contains a = true by simpa using hc)]
        cases hq : heapGet heap a with
        | none => simp [hq]
        | some o =>
          cases o with
          | arr elems =>
            cases hx : serItems (serProp heap n) (a :: seen) elems with
            | error e2 => simp [hq, hx]
            | ok p =>
              obtain ⟨parts, sn⟩ := p
              simp [hq, hx]
          | obj fields =>
            cases hx : serMembers (serProp heap n) (a :: seen) fields with
            | error e2 => simp [hq, hx]
            | ok p =>
              obtain ⟨parts, sn⟩ := p
              simp [hq, hx]

/-- C3.  The response normalizer is total: when structural encoding
with the replacer fails, the result is exactly the plain encoding of
the diagnostic object carrying the fixed error marker and the failure
message; that fallback encoding itself always succeeds; and the
serializer never produces the undefined (non-string) result. -/
theorem c3_safeStringify_fallback (heap : Heap) (fuel : Nat) (v : JsVal) :
    (∀ e, serProp heap fuel [] v = .error e →
      safeStringify heap fuel v =
        "\x7b\"error\":\"Failed to serialize response\",\"message\":" ++ quoteJson e ++ "\x7d")
    ∧ (∀ e, plainSer [(0, .obj (diagFields e))] 3 [] (.ref 0) =
        .ok (some ("\x7b\"error\":\"Failed to serialize response\",\"message\":"
          ++ quoteJson e ++ "\x7d")))
    ∧ (∀ s, serProp heap fuel [] v ≠ .ok (none, s)) := by
  refine ⟨?_, fun e => plainSer_diag e, fun s => serProp_never_undefined heap fuel [] v s⟩
  intro e h
  simp only [safeStringify, h, plainSer_diag]

/-- C3 witness.  With no stack budget the serializer fails with the
stack message and the normalizer returns the diagnostic encoding. -/
theorem c3_safeStringify_fallback_witness :
    serProp ([] : Heap) 0 [] .null = .error stackMsg
    ∧ safeStringify [] 0 .null =
        "\x7b\"error\":\"Failed to serialize response\",\"message\":"
          ++ quoteJson stackMsg ++ "\x7d" :=
  ⟨rfl, (c3_safeStringify_fallback [] 0 .null).1 stackMsg rfl⟩

/-- C6 counterexample.  A parameter whose pointer field holds the empty
string bears a pointer that is not of the recognized shape, yet the
source's truthiness test returns it unchanged instead of yielding
null. -/
theorem c6_resolveParameter_counterexample :
    charsLead refLead ("" : String).data = false
    ∧ resolveParameter { ref := some "" } ({} : OpenApiSpec) =
        some { ref := some "" } := by decide

/-- C6 amended.  A parameter with no pointer, or with an empty (falsy)
pointer, is returned unchanged; a non-empty pointer not of the
recognized shape, or whose target is missing, yields null; otherwise
the result merges the target with the local fields, every present local
field winning, and the result's pointer field comes from the target
alone, so it is absent whenever the dictionary target carries none. -/
theorem c6_resolveParameter_amended (p : OpenApiParameter) (spec : OpenApiSpec) :
    (p.ref = none → resolveParameter p spec = some p)
    ∧ (p.ref = some "" → resolveParameter p spec = some p)
    ∧ (∀ r, p.ref = some r → r ≠ "" → charsLead refLead r.data = false →
        resolveParameter p spec = none)
    ∧ (∀ r, p.ref = some r → r ≠ "" → resolveParameterRef r spec = none →
        resolveParameter p spec = none)
    ∧ (∀ r target, p.ref = some r → r ≠ "" → resolveParameterRef r spec = some target →
        resolveParameter p spec = some (mergeParam target p)
        ∧ (mergeParam target p).ref = target.ref
        ∧ (mergeParam target p).name = (p.name <|> target.name)
        ∧ (mergeParam target p).inLoc = (p.inLoc <|> target.inLoc)
        ∧ (mergeParam target p).description = (p.description <|> target.description)
        ∧ (mergeParam target p).required = (p.required <|> target.required)
        ∧ (mergeParam target p).schema = (p.schema <|> target.schema)
        ∧ (target.ref = none → (mergeParam target p).ref = none)) := by
  refine ⟨?_, ?_, ?_, ?_, ?_⟩
  · intro h; simp [resolveParameter, h]
  · intro h; simp [resolveParameter, h]
  · intro r hr hne hcl
    simp [resolveParameter, hr, hne, resolveParameterRef, hcl]
  · intro r hr hne hnone
    simp [resolveParameter, hr, hne, hnone]
  · intro r target hr hne htgt
    refine ⟨by simp [resolveParameter, hr, hne, htgt], rfl, rfl, rfl, rfl, rfl, rfl, ?_⟩
    intro h; simp [mergeParam, h]

/-- C6 amended witness.  Resolving a reference into the fixture
dictionary merges the target with the local `required` override. -/
theorem c6_resolveParameter_amended_witness :
    resolveParameter refParam refDoc = some
      { name := some "key", inLoc := some "query", required := some true,
        schema := some { type := some "string" } } := by
  have h := ((c6_resolveParameter_amended refParam refDoc).2.2.2.2) "#/parameters/key"
    { name := some "key", inLoc := some "query", required := some false,
      schema := some { type := some "string" } } rfl (by decide) (by decide)
  rw [h.1]; decide

/-- C2.  A tool handler never rejects: every failure outcome maps to an
envelope with the error flag set and a single text block prefixed with
the fixed error marker, whose message is the string form of the backend
body's structured error field when the failure carries a truthy object
body with that field, and the error's own transport-level message
otherwise. -/
theorem c2_handler_error_envelope (t : CompiledTool) (stackFuel : Nat)
    (backend : HttpRequest → HttpOutcome) (argHeap : Heap)
    (args : List (String × JsVal)) (e : ThrownValue)
    (hfail : backend (buildRequest t argHeap args) = .failure e) :
    toolHandler t stackFuel backend argHeap args =
      { content := [{ type := "text", text := "Error: " ++ errorMessage e }],
        isError := some true }
    ∧ (∀ m resp a fields ev, e = .axiosError m (some resp) → resp.data = .ref a →
        heapGet resp.heap a = some (.obj fields) → alookup fields "error" = some ev →
        errorMessage e = jsToString resp.heap (resp.heap.length + 1) [] ev)
    ∧ (respDataError e = none → ∀ m r2, e = .axiosError m r2 → errorMessage e = m)
    ∧ (∀ m, e = .jsError m → errorMessage e = m)
    ∧ (∀ s2, e = .nonError s2 → errorMessage e = s2) := by
  refine ⟨?_, ?_, ?_, ?_, ?_⟩
  · unfold toolHandler
    rw [hfail]
  · rintro m resp a fields ev rfl hd hh hl
    simp [errorMessage, respDataError, hd, hh, hl, truthy]
  · rintro hnone m r2 rfl
    simp [errorMessage, hnone]
  · rintro m rfl
    simp [errorMessage, respDataError]
  · rintro s2 rfl
    simp [errorMessage, respDataError]

/-- C2 witness.  A simulated 400 failure whose body is the object with
error field `bad request` yields the error flag and a text containing
`bad request`. -/
theorem c2_handler_error_envelope_witness :
    toolHandler msgTool 5 badRequestBackend [] [] =
      { content := [{ type := "text", text := "Error: bad request" }],
        isError := some true }
    ∧ List.IsInfix "bad request".data "Error: bad request".data := by
  constructor
  · have h := (c2_handler_error_envelope msgTool 5 badRequestBackend [] []
      badRequestFailure rfl).1
    rw [h]; decide
  · decide

theorem paramStep_none (spec : OpenApiSpec) (shape : List (String × ZodField))
    (p : OpenApiParameter) (hr : resolveParameter p spec = none) :
    paramStep spec shape p = shape := by
  simp [paramStep, hr]

theorem paramStep_qp (spec : OpenApiSpec) (shape : List (String × ZodField))
    (p q : OpenApiParameter) (hr : resolveParameter p spec = some q)
    (hq : (q.inLoc == some "query" || q.inLoc == some "path") = true) :
    paramStep spec shape p =
      objAssign shape (jsKey q.name)
        (openApiTypeToZod q.schema q.description
          (q.required == some true || p.required == some true)) := by
  simp [paramStep, hr, hq]

theorem paramStep_skip (spec : OpenApiSpec) (shape : List (String × ZodField))
    (p q : OpenApiParameter) (hr : resolveParameter p spec = some q)
    (hq : (q.inLoc == some "query" || q.inLoc == some "path") = false) :
    paramStep spec shape p = shape := by
  simp [paramStep, hr, hq]

theorem paramKeys_cons_none (spec : OpenApiSpec) (p : OpenApiParameter)
    (ps : List OpenApiParameter) (hr : resolveParameter p spec = none) :
    paramKeys spec (p :: ps) = paramKeys spec ps := by
  simp [paramKeys, List.filterMap_cons, hr]

theorem paramKeys_cons_qp (spec : OpenApiSpec) (p q : OpenApiParameter)
    (ps : List OpenApiParameter) (hr : resolveParameter p spec = some q)
    (hq : (q.inLoc == some "query" || q.inLoc == some "path") = true) :
    paramKeys spec (p :: ps) = jsKey q.name :: paramKeys spec ps := by
  simp [paramKeys, List.filterMap_cons, hr, List.filter_cons, hq]

theorem paramKeys_cons_skip (spec : OpenApiSpec) (p q : OpenApiParameter)
    (ps : List OpenApiParameter) (hr : resolveParameter p spec = some q)
    (hq : (q.inLoc == some "query" || q.inLoc == some "path") = false) :
    paramKeys spec (p :: ps) = paramKeys spec ps := by
  simp [paramKeys, List.filterMap_cons, hr, List.filter_cons, hq]

theorem paramStep_header (spec : OpenApiSpec) (shape : List (String × ZodField))
    (p : OpenApiParameter) (h : isResolvedHeader spec p = true) :
    paramStep spec shape p = shape := by
  unfold isResolvedHeader at h
  cases hr : resolveParameter p spec with
  | none => rw [hr] at h; cases h
  | some q =>
    rw [hr] at h
    have hq : q.inLoc = some "header" := beq_iff_eq.mp h
    simp [paramStep, hr, hq]

theorem bool_eq_false_of_ne_true {b : Bool} (h : ¬ b = true) : b = false := by
  cases b
  · rfl
  · exact absurd rfl h

theorem foldl_paramStep_filter (spec : OpenApiSpec) :
    ∀ (params : List OpenApiParameter) (shape : List (String × ZodField)),
    (params.filter (fun p => !isResolvedHeader spec p)).foldl (paramStep spec) shape =
      params.foldl (paramStep spec) shape := by
  intro params
  induction params with
  | nil => intro shape; rfl
  | cons p ps ih =>
    intro shape
    by_cases hh : isResolvedHeader spec p = true
    · simp only [List.filter_cons, hh, Bool.not_true, Bool.false_eq_true, if_false,
        List.foldl_cons]
      rw [ih, paramStep_header spec shape p hh]
    · have hf : isResolvedHeader spec p = false := bool_eq_false_of_ne_true hh
      simp only [List.filter_cons, hf, Bool.not_false, if_true, List.foldl_cons]
      exact ih (paramStep spec shape p)

theorem filterMap_resolve_filter (spec : OpenApiSpec) (loc : String) (hloc : loc ≠ "header") :
    ∀ params : List OpenApiParameter,
    ((params.filter (fun p => !isResolvedHeader spec p)).filterMap
        (fun p => resolveParameter p spec)).filter (fun p => p.inLoc == some loc) =
      (params.filterMap (fun p => resolveParameter p spec)).filter
        (fun p => p.inLoc == some loc) := by
  intro params
  induction params with
  | nil => rfl
  | cons p ps ih =>
    cases hr : resolveParameter p spec with
    | none =>
      have hf : isResolvedHeader spec p = false := by unfold isResolvedHeader; rw [hr]
      simp only [List.filter_cons, hf, Bool.not_false, if_true, List.filterMap_cons, hr]
      exact ih
    | some q =>
      by_cases hh : q.inLoc = some "header"
      · have hf : isResolvedHeader spec p = true := by
          unfold isResolvedHeader; rw [hr]; simp [hh]
        have hnl : (q.inLoc == some loc) = false := by
          rw [hh]
          simp only [beq_eq_false_iff_ne, ne_eq, Option.some.injEq]
          exact fun e => hloc e.symm
        simp only [List.filter_cons, hf, Bool.not_true, Bool.false_eq_true, if_false,
          List.filterMap_cons, hr, hnl]
        exact ih
      · have hf : isResolvedHeader spec p = false := by
          unfold isResolvedHeader; rw [hr]
          simp only [beq_eq_false_iff_ne, ne_eq]
          exact hh
        simp only [List.filter_cons, hf, Bool.not_false, if_true, List.filterMap_cons, hr,
          List.filter_cons]
        rw [ih]

theorem paramFold_keys_subset (spec : OpenApiSpec) :
    ∀ (params : List OpenApiParameter) (shape : List (String × ZodField)) (n : String),
    n ∈ ((params.foldl (paramStep spec) shape).map (·.1)) →
    n ∈ shape.map (·.1) ∨ n ∈ paramKeys spec params := by
  intro params
  induction params with
  | nil => intro shape n h; exact Or.inl h
  | cons p ps ih =>
    intro shape n h
    rw [List.foldl_cons] at h
    rcases ih (paramStep spec shape p) n h with h1 | h1
    · cases hr : resolveParameter p spec with
      | none =>
        rw [paramStep_none spec shape p hr] at h1
        rw [paramKeys_cons_none spec p ps hr]
        exact Or.inl h1
      | some q =>
        by_cases hq : (q.inLoc == some "query" || q.inLoc == some "path") = true
        · rw [paramStep_qp spec shape p q hr hq] at h1
          rw [objAssign_keys] at h1
          rw [paramKeys_cons_qp spec p q ps hr hq]
          by_cases hs : (alookup shape (jsKey q.name)).isSome
          · rw [if_pos hs] at h1
            exact Or.inl h1
          · rw [if_neg hs] at h1
            rcases List.mem_append.mp h1 with h2 | h2
            · exact Or.inl h2
            · exact Or.inr (List.mem_cons.mpr (Or.inl (List.mem_singleton.mp h2)))
        · have hq2 := bool_eq_false_of_ne_true hq
          rw [paramStep_skip spec shape p q hr hq2] at h1
          rw [paramKeys_cons_skip spec p q ps hr hq2]
          exact Or.inl h1
    · right
      cases hr : resolveParameter p spec with
      | none => rw [paramKeys_cons_none spec p ps hr]; exact h1
      | some q =>
        by_cases hq : (q.inLoc == some "query" || q.inLoc == some "path") = true
        · rw [paramKeys_cons_qp spec p q ps hr hq]
          exact List.mem_cons.mpr (Or.inr h1)
        · rw [paramKeys_cons_skip spec p q ps hr (bool_eq_false_of_ne_true hq)]
          exact h1

theorem bodyFold_keys_subset (req : List String) :
    ∀ (props : List (String × SchemaFrag)) (shape : List (String × ZodField)) (n : String),
    n ∈ ((props.foldl (bodyStep req) shape).map (·.1)) →
    n ∈ shape.map (·.1) ∨ n ∈ props.map (·.1) := by
  intro props
  induction props with
  | nil => intro shape n h; exact Or.inl h
  | cons kv rest ih =>
    intro shape n h
    rw [List.foldl_cons] at h
    rcases ih (bodyStep req shape kv) n h with h1 | h1
    · unfold bodyStep at h1
      by_cases hs : (alookup shape kv.1).isSome
      · rw [if_pos hs] at h1
        exact Or.inl h1
      · rw [if_neg hs] at h1
        rw [List.map_append] at h1
        rcases List.mem_append.mp h1 with h2 | h2
        · exact Or.inl h2
        · right
          simp only [List.map_cons, List.mem_cons]
          simp only [List.map_cons, List.map_nil, List.mem_singleton] at h2
          exact Or.inl h2
    · right
      simp only [List.map_cons, List.mem_cons]
      exact Or.inr h1

theorem alookup_filter_ne {α : Type} (l : List (String × α)) (hn k : String) (h : k ≠ hn) :
    alookup (l.filter (fun kv => !(kv.1 == hn))) k = alookup l k := by
  induction l with
  | nil => rfl
  | cons kv rest ih =>
    obtain ⟨k2, v⟩ := kv
    by_cases h2 : k2 = hn
    · subst h2
      have hb : (k2 == k) = false := by
        simp only [beq_eq_false_iff_ne, ne_eq]
        exact fun e => h e.symm
      simp only [List.filter_cons, beq_self_eq_true, Bool.not_true, Bool.false_eq_true,
        if_false]
      rw [alookup]
      simp only [hb, Bool.false_eq_true, if_false]
      exact ih
    · have hb : (k2 == hn) = false := by
        simp only [beq_eq_false_iff_ne, ne_eq]
        exact h2
      simp only [List.filter_cons, hb, Bool.not_false, if_true]
      rw [alookup, alookup]
      by_cases h3 : k2 == k
      · simp [h3]
      · have h4 : (k2 == k) = false := by
          cases hx : (k2 == k)
          · rfl
          · exact absurd hx h3
        simp only [h4, Bool.false_eq_true, if_false]
        exact ih

theorem argGet_filter_ne (args : List (String × JsVal)) (hn p : String) (h : p ≠ hn) :
    argGet (args.filter (fun kv => !(kv.1 == hn))) p = argGet args p := by
  unfold argGet
  rw [alookup_filter_ne args hn p h]

theorem buildRequest_drop_key (t : CompiledTool) (argHeap : Heap)
    (args : List (String × JsVal)) (hn : String)
    (h1 : hn ∉ t.pathParamNames) (h2 : hn ∉ t.queryParamNames)
    (h3 : hn ∉ t.bodyParamNames) :
    buildRequest t argHeap (args.filter (fun kv => !(kv.1 == hn))) =
      buildRequest t argHeap args := by
  unfold buildRequest
  have hurl : ∀ (u : String), ∀ p ∈ t.pathParamNames,
      (fun (u2 : String) p2 =>
        let val := argGet (args.filter (fun kv => !(kv.1 == hn))) p2
        if val == .undefined || val == .null then u2
        else ⟨replaceAllCIAux ('\x7b' :: (p2.data ++ ['\x7d']))
          (jsToString argHeap (argHeap.length + 1) [] val).data u2.data.length u2.data⟩) u p =
      (fun (u2 : String) p2 =>
        let val := argGet args p2
        if val == .undefined || val == .null then u2
        else ⟨replaceAllCIAux ('\x7b' :: (p2.data ++ ['\x7d']))
          (jsToString argHeap (argHeap.length + 1) [] val).data u2.data.length u2.data⟩) u p := by
    intro u p hp
    have hne : p ≠ hn := fun e => h1 (e ▸ hp)
    simp only [argGet_filter_ne args hn p hne]
  have hq : ∀ (ps : List (String × JsVal)), ∀ p ∈ t.queryParamNames,
      (fun (ps2 : List (String × JsVal)) p2 =>
        let val := argGet (args.filter (fun kv => !(kv.1 == hn))) p2
        if val == .undefined || val == .null then ps2 else objAssign ps2 p2 val) ps p =
      (fun (ps2 : List (String × JsVal)) p2 =>
        let val := argGet args p2
        if val == .undefined || val == .null then ps2 else objAssign ps2 p2 val) ps p := by
    intro ps p hp
    have hne : p ≠ hn := fun e => h2 (e ▸ hp)
    simp only [argGet_filter_ne args hn p hne]
  have hbf : t.bodyParamNames.filter
        (fun p => !(argGet (args.filter (fun kv => !(kv.1 == hn))) p == .undefined)) =
      t.bodyParamNames.filter (fun p => !(argGet args p == .undefined)) := by
    apply List.filter_congr
    intro p hp
    have hne : p ≠ hn := fun e => h3 (e ▸ hp)
    rw [argGet_filter_ne args hn p hne]
  have hbody : List.foldl
      (fun m p => objAssign m p (argGet (args.filter (fun kv => !(kv.1 == hn))) p)) []
      (t.bodyParamNames.filter (fun p => !(argGet args p == .undefined))) =
      List.foldl (fun m p => objAssign m p (argGet args p)) []
      (t.bodyParamNames.filter (fun p => !(argGet args p == .undefined))) := by
    apply List.foldl_ext
    intro m p hp
    have hp2 : p ∈ t.bodyParamNames := (List.mem_filter.mp hp).1
    have hne : p ≠ hn := fun e => h3 (e ▸ hp2)
    rw [argGet_filter_ne args hn p hne]
  rw [List.foldl_ext _ _ t.path hurl, List.foldl_ext _ _ [] hq, hbf, hbody]

theorem queryPathNames_split (op : OpenApiOperation) (spec : OpenApiSpec) (n : String) :
    n ∈ queryPathNamesOf op spec →
    n ∈ queryNamesOf op spec ∨ n ∈ pathNamesOf op spec := by
  unfold queryPathNamesOf queryNamesOf pathNamesOf
  intro h
  rcases List.mem_map.mp h with ⟨p, hp, rfl⟩
  rcases List.mem_filter.mp hp with ⟨hpl, hcond⟩
  rw [Bool.or_eq_true] at hcond
  rcases hcond with hq | hq
  · exact Or.inl (List.mem_map.mpr ⟨p, List.mem_filter.mpr ⟨hpl, hq⟩, rfl⟩)
  · exact Or.inr (List.mem_map.mpr ⟨p, List.mem_filter.mpr ⟨hpl, hq⟩, rfl⟩)

/-- C10 counterexample.  In an operation declaring a header parameter
named `x` and a body property of the same name, the argument under the
header parameter's name is placed in the request body, refuting the
claim that such an argument is never placed anywhere in the issued
request. -/
theorem c10_header_argument_placed :
    headerNamesOf headerBodyOp headerBodyDoc = ["x"]
    ∧ (openApiToTools headerBodyDoc plainCfg).map
        (fun t => buildRequest t [] [("x", .num 1)]) =
      [{ method := "post", url := "/things", params := [],
         data := some [("x", .num 1)] }] := by decide

/-- C10 amended.  A resolved header parameter contributes nothing to
the compiled tool: deleting every header parameter changes neither the
input schema nor the query, path or body name lists; and an argument
under a resolved header parameter's name that is not also claimed by a
query parameter, a path parameter or a body property produces no input
schema field and never reaches the issued request (removing it from the
argument map leaves the request unchanged). -/
theorem c10_header_amended (op : OpenApiOperation) (spec : OpenApiSpec) :
    buildZodShapeFromOperation (dropHeaderParams op spec) spec =
      buildZodShapeFromOperation op spec
    ∧ queryNamesOf (dropHeaderParams op spec) spec = queryNamesOf op spec
    ∧ pathNamesOf (dropHeaderParams op spec) spec = pathNamesOf op spec
    ∧ bodyNamesOf (dropHeaderParams op spec) = bodyNamesOf op
    ∧ (∀ hn, hn ∈ headerNamesOf op spec →
        hn ∉ queryNamesOf op spec → hn ∉ pathNamesOf op spec → hn ∉ bodyNamesOf op →
        (hn ∉ (buildZodShapeFromOperation op spec).map (·.1)
         ∧ ∀ (un key method2 path2 nm : String) (argHeap : Heap)
            (args : List (String × JsVal)),
            buildRequest (compileOne spec un
                { key := key, method := method2, path := path2, op := op, name := nm })
              argHeap (args.filter (fun kv => !(kv.1 == hn))) =
            buildRequest (compileOne spec un
                { key := key, method := method2, path := path2, op := op, name := nm })
              argHeap args)) := by
  have hp : (dropHeaderParams op spec).parameters.getD [] =
      (op.parameters.getD []).filter (fun p => !isResolvedHeader spec p) := rfl
  refine ⟨?_, ?_, ?_, rfl, ?_⟩
  · unfold buildZodShapeFromOperation
    rw [hp]
    rw [foldl_paramStep_filter]
    rfl
  · unfold queryNamesOf resolvedParamsOf
    rw [hp, filterMap_resolve_filter spec "query" (by decide)]
  · unfold pathNamesOf resolvedParamsOf
    rw [hp, filterMap_resolve_filter spec "path" (by decide)]
  · intro hn hmem hq2 hp2 hb2
    constructor
    · intro hin
      unfold buildZodShapeFromOperation at hin
      rcases bodyFold_keys_subset _ _ _ _ hin with h1 | h1
      · rcases paramFold_keys_subset spec _ _ _ h1 with h2 | h2
        · cases h2
        · rcases queryPathNames_split op spec hn h2 with h3 | h3
          · exact hq2 h3
          · exact hp2 h3
      · exact hb2 h1
    · intro un key method2 path2 nm argHeap args
      exact buildRequest_drop_key _ argHeap args hn hp2 hq2 hb2

/-- C10 amended witness.  For the header-only operation, the argument
named after the header parameter is absent from the schema keys and
dropping it from the argument map leaves the request unchanged. -/
theorem c10_header_amended_witness :
    "hx" ∉ (buildZodShapeFromOperation headerOnlyOp {}).map (·.1)
    ∧ buildRequest (compileOne {} "t"
        { key := "k", method := "get", path := "/things", op := headerOnlyOp, name := "t" })
        [] ([("hx", JsVal.num 1)].filter (fun kv => !(kv.1 == "hx"))) =
      buildRequest (compileOne {} "t"
        { key := "k", method := "get", path := "/things", op := headerOnlyOp, name := "t" })
        [] [("hx", JsVal.num 1)]
    ∧ ([("hx", JsVal.num 1)].filter (fun kv => !(kv.1 == "hx"))) = [] := by
  have h := (c10_header_amended headerOnlyOp {}).2.2.2.2 "hx"
    (by decide) (by decide) (by decide) (by decide)
  exact ⟨h.1, h.2 "t" "k" "get" "/things" "t" [] [("hx", JsVal.num 1)], by decide⟩

theorem contains_append_singleton (l : List String) (a n : String) (h : n ≠ a) :
    (l ++ [a]).contains n = l.contains n := by
  cases hx : l.contains n with
  | true =>
    have hm : n ∈ l := List.mem_of_elem_eq_true hx
    exact List.elem_eq_true_of_mem (List.mem_append.mpr (Or.inl hm))
  | false =>
    cases hy : (l ++ [a]).contains n with
    | false => rfl
    | true =>
      have hm : n ∈ l ++ [a] := List.mem_of_elem_eq_true hy
      rcases List.mem_append.mp hm with hm2 | hm2
      · have h3 : l.contains n = true := List.elem_eq_true_of_mem hm2
        rw [h3] at hx
        cases hx
      · exact absurd (List.mem_singleton.mp hm2) h

theorem paramFold_keys (spec : OpenApiSpec) :
    ∀ (params : List OpenApiParameter) (shape : List (String × ZodField)),
    (paramKeys spec params).Nodup →
    (∀ n ∈ paramKeys spec params, n ∉ shape.map (·.1)) →
    ((params.foldl (paramStep spec) shape).map (·.1)) =
      shape.map (·.1) ++ paramKeys spec params := by
  intro params
  induction params with
  | nil =>
    intro shape _ _
    simp [paramKeys]
  | cons p ps ih =>
    intro shape hnd hdis
    rw [List.foldl_cons]
    cases hr : resolveParameter p spec with
    | none =>
      rw [paramKeys_cons_none spec p ps hr] at hnd hdis ⊢
      rw [paramStep_none spec shape p hr]
      exact ih shape hnd hdis
    | some q =>
      by_cases hq : (q.inLoc == some "query" || q.inLoc == some "path") = true
      · rw [paramKeys_cons_qp spec p q ps hr hq] at hnd hdis ⊢
        rw [paramStep_qp spec shape p q hr hq]
        have hknotin : jsKey q.name ∉ shape.map (·.1) :=
          hdis (jsKey q.name) (List.mem_cons.mpr (Or.inl rfl))
        have hs : ¬ (alookup shape (jsKey q.name)).isSome = true := by
          rw [alookup_isSome_iff]
          exact hknotin
        have hkeys : (objAssign shape (jsKey q.name)
            (openApiTypeToZod q.schema q.description
              (q.required == some true || p.required == some true))).map (·.1) =
            shape.map (·.1) ++ [jsKey q.name] := by
          rw [objAssign_keys, if_neg hs]
        have hnd2 : (paramKeys spec ps).Nodup := (List.nodup_cons.mp hnd).2
        have hknot : jsKey q.name ∉ paramKeys spec ps := (List.nodup_cons.mp hnd).1
        have hdis2 : ∀ n ∈ paramKeys spec ps,
            n ∉ (objAssign shape (jsKey q.name)
              (openApiTypeToZod q.schema q.description
                (q.required == some true || p.required == some true))).map (·.1) := by
          intro n hn
          rw [hkeys]
          intro hmem
          rcases List.mem_append.mp hmem with h2 | h2
          · exact hdis n (List.mem_cons.mpr (Or.inr hn)) h2
          · exact hknot (List.mem_singleton.mp h2 ▸ hn)
        rw [ih _ hnd2 hdis2, hkeys, List.append_assoc, List.singleton_append]
      · have hq2 := bool_eq_false_of_ne_true hq
        rw [paramKeys_cons_skip spec p q ps hr hq2] at hnd hdis ⊢
        rw [paramStep_skip spec shape p q hr hq2]
        exact ih shape hnd hdis

theorem bodyFold_keys (req : List String) :
    ∀ (props : List (String × SchemaFrag)) (shape : List (String × ZodField)),
    ((props.map (·.1)).Nodup) →
    ((props.foldl (bodyStep req) shape).map (·.1)) =
      shape.map (·.1) ++
        (props.map (·.1)).filter (fun n => !((shape.map (·.1)).contains n)) := by
  intro props
  induction props with
  | nil => intro shape _; simp
  | cons kv rest ih =>
    intro shape hnd
    obtain ⟨pn, fv⟩ := kv
    simp only [List.map_cons] at hnd
    have hnd2 := (List.nodup_cons.mp hnd).2
    have hpn : pn ∉ rest.map (·.1) := (List.nodup_cons.mp hnd).1
    rw [List.foldl_cons]
    by_cases hs : (alookup shape pn).isSome
    · have hstep : bodyStep req shape (pn, fv) = shape := by
        unfold bodyStep
        rw [if_pos hs]
      rw [hstep, ih shape hnd2]
      have hcont : (shape.map (·.1)).contains pn = true :=
        List.elem_eq_true_of_mem ((alookup_isSome_iff shape pn).mp hs)
      simp only [List.map_cons, List.filter_cons, hcont, Bool.not_true,
        Bool.false_eq_true, if_false]
    · have hstep : bodyStep req shape (pn, fv) = shape ++
          [(pn, openApiTypeToZod (some fv) fv.description (req.contains pn))] := by
        unfold bodyStep
        rw [if_neg hs]
      have hcont : (shape.map (·.1)).contains pn = false := by
        cases hx : (shape.map (·.1)).contains pn with
        | false => rfl
        | true =>
          exact absurd ((alookup_isSome_iff shape pn).mpr
            (List.mem_of_elem_eq_true hx)) hs
      rw [hstep, ih _ hnd2]
      have hkeys : ((shape ++
          [(pn, openApiTypeToZod (some fv) fv.description (req.contains pn))]).map
            (·.1)) = shape.map (·.1) ++ [pn] := by
        rw [List.map_append]
        rfl
      rw [hkeys]
      have hfeq : (rest.map (·.1)).filter
            (fun n => !((shape.map (·.1) ++ [pn]).contains n)) =
          (rest.map (·.1)).filter (fun n => !((shape.map (·.1)).contains n)) := by
        apply List.filter_congr
        intro n hn
        have hne : n ≠ pn := fun e => hpn (e ▸ hn)
        rw [contains_append_singleton _ _ _ hne]
      rw [hfeq]
      simp only [List.map_cons, List.filter_cons, hcont, Bool.not_false, if_true,
        List.append_assoc, List.singleton_append]

theorem bodyFold_alookup (req : List String) :
    ∀ (props : List (String × SchemaFrag)) (shape : List (String × ZodField)) (n : String),
    (alookup shape n).isSome →
    alookup (props.foldl (bodyStep req) shape) n = alookup shape n := by
  intro props
  induction props with
  | nil => intro shape n _; rfl
  | cons kv rest ih =>
    intro shape n hsome
    obtain ⟨pn, fv⟩ := kv
    rw [List.foldl_cons]
    by_cases hs : (alookup shape pn).isSome
    · have hstep : bodyStep req shape (pn, fv) = shape := by
        unfold bodyStep
        rw [if_pos hs]
      rw [hstep, ih shape n hsome]
    · have hstep : bodyStep req shape (pn, fv) = shape ++
          [(pn, openApiTypeToZod (some fv) fv.description (req.contains pn))] := by
        unfold bodyStep
        rw [if_neg hs]
      rw [hstep]
      have hpres := alookup_append_of_isSome
        [(pn, openApiTypeToZod (some fv) fv.description (req.contains pn))] hsome
      have hsome2 : (alookup (shape ++
          [(pn, openApiTypeToZod (some fv) fv.description (req.contains pn))]) n).isSome := by
        rw [hpres]
        exact hsome
      rw [ih _ n hsome2, hpres]

/-- C7.  With distinct resolved query/path parameter names and distinct
body property names, the input schema's key sequence is exactly the
query/path parameter names in parameter order followed by the body
property names not already claimed, in body iteration order; and at
every parameter name the stored field is the one the parameter pass
produced, unchanged by the body pass. -/
theorem c7_shape_fields (op : OpenApiOperation) (spec : OpenApiSpec)
    (h1 : (queryPathNamesOf op spec).Nodup)
    (h2 : (bodyNamesOf op).Nodup) :
    (buildZodShapeFromOperation op spec).map (·.1) =
      queryPathNamesOf op spec ++
        (bodyNamesOf op).filter (fun n => !((queryPathNamesOf op spec).contains n))
    ∧ (∀ n, n ∈ queryPathNamesOf op spec →
        alookup (buildZodShapeFromOperation op spec) n =
        alookup (buildZodShapeFromOperation { op with requestBody := none } spec) n) := by
  have hq : queryPathNamesOf op spec = paramKeys spec (op.parameters.getD []) := rfl
  have hpf := paramFold_keys spec (op.parameters.getD []) [] (hq ▸ h1)
    (by intro n _; simp)
  simp only [List.map_nil, List.nil_append] at hpf
  constructor
  · unfold buildZodShapeFromOperation
    rw [bodyFold_keys _ _ _ h2, hpf, hq]
    rfl
  · intro n hn
    have hsome : (alookup ((op.parameters.getD []).foldl (paramStep spec) []) n).isSome := by
      rw [alookup_isSome_iff, hpf, ← hq]
      exact hn
    unfold buildZodShapeFromOperation
    exact bodyFold_alookup _ _ _ n hsome

/-- C7 witness.  For the overlap fixture the schema keys are the
parameter name followed by the unclaimed body property, and the field
at the shared name is the parameter's string field, not the body
property's numeric one. -/
theorem c7_shape_fields_witness :
    (buildZodShapeFromOperation overlapOp {}).map (·.1) = ["query", "url"]
    ∧ alookup (buildZodShapeFromOperation overlapOp {}) "query" =
        some { base := .zstring, optional := true, description := none } := by
  have h := c7_shape_fields overlapOp {} (by decide) (by decide)
  constructor
  · rw [h.1]; decide
  · rw [h.2 "query" (by decide)]; decide

theorem methods_suffix_eq :
    ∀ m1 ∈ HTTP_METHODS, ∀ m2 ∈ HTTP_METHODS,
      (('_' :: m1.data) <:+ ('_' :: m2.data) ∨ ('_' :: m2.data) <:+ ('_' :: m1.data)) →
      m1 = m2 := by decide

theorem method_suffix_cancel (b1 b2 m1 m2 : String)
    (h1 : m1 ∈ HTTP_METHODS) (h2 : m2 ∈ HTTP_METHODS)
    (h : b1 ++ "_" ++ m1 = b2 ++ "_" ++ m2) : b1 = b2 ∧ m1 = m2 := by
  have hdata : b1.data ++ ('_' :: m1.data) = b2.data ++ ('_' :: m2.data) := by
    have e := congrArg String.data h
    simpa [String.data_append] using e
  have hs1 : ('_' :: m1.data) <:+ (b2.data ++ ('_' :: m2.data)) := ⟨b1.data, hdata⟩
  have hs2 : ('_' :: m2.data) <:+ (b2.data ++ ('_' :: m2.data)) := ⟨b2.data, rfl⟩
  have hm : m1 = m2 :=
    methods_suffix_eq m1 h1 m2 h2 (List.suffix_or_suffix_of_suffix hs1 hs2)
  subst hm
  refine ⟨?_, rfl⟩
  have hb : b1.data = b2.data := List.append_inj_left' hdata rfl
  cases b1 with
  | mk d1 =>
    cases b2 with
    | mk d2 =>
      simp only at hb
      rw [hb]

theorem resolveOperations_method_mem (spec : OpenApiSpec) (inc exc : List String)
    (tp : String) :
    ∀ r ∈ resolveOperations spec inc exc tp, r.method ∈ HTTP_METHODS := by
  intro r hr
  unfold resolveOperations at hr
  rw [List.mem_flatMap] at hr
  obtain ⟨entry, _, hr⟩ := hr
  obtain ⟨pk, pi⟩ := entry
  cases pi with
  | none => cases hr
  | some item =>
    simp only at hr
    rw [List.mem_flatMap] at hr
    obtain ⟨m, hm, hr2⟩ := hr
    cases halo : alookup item m with
    | none => rw [halo] at hr2; cases hr2
    | some op2 =>
      rw [halo] at hr2
      simp only at hr2
      by_cases hinc : isIncluded (opKey m (normPath pk)) inc exc = true
      · rw [if_pos hinc] at hr2
        have he := List.mem_singleton.mp hr2
        rw [he]
        exact hm
      · rw [if_neg hinc] at hr2
        cases hr2

theorem countP_two_le {α : Type} (p : α → Bool) {l : List α} {x y : α}
    (hx : x ∈ l) (hy : y ∈ l) (hxy : x ≠ y) (hpx : p x = true) (hpy : p y = true) :
    2 ≤ l.countP p := by
  induction l with
  | nil => cases hx
  | cons a t ih =>
    rw [List.countP_cons]
    rcases List.mem_cons.mp hx with rfl | hx2
    · rcases List.mem_cons.mp hy with rfl | hy2
      · exact absurd rfl hxy
      · have h1 : 0 < t.countP p := List.countP_pos_iff.mpr ⟨y, hy2, hpy⟩
        rw [if_pos hpx]
        omega
    · rcases List.mem_cons.mp hy with rfl | hy2
      · have h1 : 0 < t.countP p := List.countP_pos_iff.mpr ⟨x, hx2, hpx⟩
        rw [if_pos hpy]
        omega
      · have h1 := ih hx2 hy2
        by_cases hpa : p a = true
        · rw [if_pos hpa]; omega
        · rw [if_neg hpa]; omega

theorem openApiToTools_names (spec : OpenApiSpec) (config : ToolsConfig) :
    (openApiToTools spec config).map (·.name) =
      (resolveOperations spec config.includeEndpoints config.excludeEndpoints
        config.toolPrefix).map
        (fun r =>
          if 1 < nameCountIn (resolveOperations spec config.includeEndpoints
              config.excludeEndpoints config.toolPrefix) r.name
          then r.name ++ "_" ++ r.method else r.name) := by
  unfold openApiToTools
  rw [List.map_map]
  rfl

theorem finalNames_nodup (L : List ResolvedOp)
    (hM : ∀ r ∈ L, r.method ∈ HTTP_METHODS)
    (hA : L.Pairwise (fun x y => x.name = y.name → x.method ≠ y.method))
    (hB : ∀ x ∈ L, ∀ y ∈ L, nameCountIn L x.name = 1 → 1 < nameCountIn L y.name →
      x.name ≠ y.name ++ "_" ++ y.method) :
    (L.map (fun r => if 1 < nameCountIn L r.name then r.name ++ "_" ++ r.method
      else r.name)).Nodup := by
  unfold List.Nodup
  rw [List.pairwise_map]
  refine List.Pairwise.imp_of_mem ?_ hA
  intro x y hx hy hxy heq
  by_cases h1 : 1 < nameCountIn L x.name <;> by_cases h2 : 1 < nameCountIn L y.name
  · rw [if_pos h1, if_pos h2] at heq
    obtain ⟨hn, hm⟩ := method_suffix_cancel _ _ _ _ (hM x hx) (hM y hy) heq
    exact (hxy hn) hm
  · rw [if_pos h1, if_neg h2] at heq
    have hy1 : nameCountIn L y.name = 1 := by
      have hpos : 0 < nameCountIn L y.name :=
        List.countP_pos_iff.mpr ⟨y, hy, beq_self_eq_true y.name⟩
      unfold nameCountIn at h2 hpos ⊢
      omega
    exact hB y hy x hx hy1 h1 heq.symm
  · rw [if_neg h1, if_pos h2] at heq
    have hx1 : nameCountIn L x.name = 1 := by
      have hpos : 0 < nameCountIn L x.name :=
        List.countP_pos_iff.mpr ⟨x, hx, beq_self_eq_true x.name⟩
      unfold nameCountIn at h1 hpos ⊢
      omega
    exact hB x hx y hy hx1 h2 heq
  · rw [if_neg h1, if_neg h2] at heq
    have hmne : x.method ≠ y.method := hxy heq
    have hxyne : x ≠ y := fun e => hmne (by rw [e])
    have h2le : 2 ≤ nameCountIn L x.name :=
      countP_two_le _ hx hy hxyne (beq_self_eq_true x.name)
        (by rw [heq]; exact beq_self_eq_true y.name)
    exact h1 (by unfold nameCountIn at h2le ⊢; omega)

/-- C1 counterexample.  Two same-method operations can derive the same
base name, and appending the method then yields duplicate tool names:
the document with `get:/pet` and `get:/pet/(braced id)` compiles to two
tools both named `pet_get`; and a once-occurring base name can equal a
suffixed one, as in the document whose paths `/pet` (get and put) and
`/pet/get` (get) compile to `pet_get`, `pet_put`, `pet_get`. -/
theorem c1_duplicate_names_counterexample :
    ((openApiToTools dupDoc plainCfg).map (·.name) = ["pet_get", "pet_get"]
      ∧ ¬ ((openApiToTools dupDoc plainCfg).map (·.name)).Nodup)
    ∧ ((openApiToTools dupDoc2 plainCfg).map (·.name) = ["pet_get", "pet_put", "pet_get"]
      ∧ ¬ ((openApiToTools dupDoc2 plainCfg).map (·.name)).Nodup) := by
  refine ⟨⟨by decide, ?_⟩, ⟨by decide, ?_⟩⟩
  · intro h
    have := h
    rw [(by decide : (openApiToTools dupDoc plainCfg).map (·.name) =
      ["pet_get", "pet_get"])] at this
    simp [List.Nodup] at this
  · intro h
    have := h
    rw [(by decide : (openApiToTools dupDoc2 plainCfg).map (·.name) =
      ["pet_get", "pet_put", "pet_get"])] at this
    simp [List.Nodup] at this

/-- C1 amended.  The compiled tool names are pairwise distinct
provided that (i) no two distinct filtered operations share both the
derived base name and the HTTP method, and (ii) no base name occurring
exactly once equals a multiply-occurring base name with its owning
method appended.  Without these provisos duplicates occur, as the
counterexample documents show. -/
theorem c1_name_uniqueness_amended (spec : OpenApiSpec) (inc exc : List String) (tp : String)
    (hA : (resolveOperations spec inc exc tp).Pairwise
      (fun x y => x.name = y.name → x.method ≠ y.method))
    (hB : ∀ x ∈ resolveOperations spec inc exc tp, ∀ y ∈ resolveOperations spec inc exc tp,
      nameCountIn (resolveOperations spec inc exc tp) x.name = 1 →
      1 < nameCountIn (resolveOperations spec inc exc tp) y.name →
      x.name ≠ y.name ++ "_" ++ y.method) :
    ((openApiToTools spec
        { includeEndpoints := inc, excludeEndpoints := exc, toolPrefix := tp }).map
      (·.name)).Nodup := by
  rw [openApiToTools_names]
  exact finalNames_nodup (resolveOperations spec inc exc tp)
    (resolveOperations_method_mem spec inc exc tp) hA hB

/-- C1 amended witness.  The one-path, two-method document satisfies
both provisos and compiles to distinct names. -/
theorem c1_name_uniqueness_amended_witness :
    ((openApiToTools petDoc plainCfg).map (·.name)).Nodup :=
  c1_name_uniqueness_amended petDoc [] [] "" (by decide) (by decide)

end OpenApiMcp
